import Mathlib

/-!
Verification of the SRT-to-chunk segmentation and timestamp-selection pipeline.

This file gives a shallow embedding, in Lean 4, of the algorithmic core of the
repository: the SRT parser and time codec (`parseSrtContent`, `srtTimeToSeconds`),
the video-metadata analyzer (`getVideoDuration`, `getVideoMetadata`), the
break-point detector (`findNaturalBreakPoints`), the video analyzer
(`analyzeContentDensity`, `determineProcessingStrategy`, `categorizeVideoLength`),
the timestamp normalizer (`normalizeTimestampFormat`), the chunk segmenter
(`createTimeBasedChunks` and its helpers), and the Zod output schema
(`timestampsOutputAccepts`).

Modelling conventions:
- JavaScript strings are `List Char`; JavaScript numbers are `JSNum := Option Rat`
  where `none` models `NaN` (every comparison against `NaN` is false, and
  arithmetic involving `NaN` produces `NaN`, which the `j*` operations mirror).
  Division by zero is also mapped to `none`; in JavaScript it gives `±Infinity`,
  but in every reachable use in this code base the resulting value only flows
  into interval tests (`x >= 2 && x <= 4`-style), which are false for both
  `NaN` and `±Infinity`, so the two models agree on all observable behaviour.
- Rational arithmetic is done through `mkRat`-based wrappers (`qadd`, `qsub`,
  `qmul`, `qdiv`) so that concrete runs reduce inside the kernel; they are
  proved equal to the field operations of `ℚ`.
- The `while` loop of `createTimeBasedChunks` is embedded with explicit fuel
  (`chunkGo`); `none` means the loop either ran out of fuel (it would still be
  running in JavaScript) or crashed on an out-of-bounds entry access.
- All other loops are structural recursions and total.
-/

set_option maxHeartbeats 4000000
set_option maxRecDepth 10000

/-! ## Reducible rational arithmetic and the JS-number model -/

def qadd (a b : Rat) : Rat := mkRat (a.num * b.den + b.num * a.den) (a.den * b.den)

def qsub (a b : Rat) : Rat := mkRat (a.num * b.den - b.num * a.den) (a.den * b.den)

def qmul (a b : Rat) : Rat := mkRat (a.num * b.num) (a.den * b.den)

def qinv (a : Rat) : Rat := mkRat (a.num.sign * a.den) a.num.natAbs

def qdiv (a b : Rat) : Rat := qmul a (qinv b)

/-- JavaScript number: `none` models `NaN`. -/
abbrev JSNum := Option Rat

def jadd : JSNum → JSNum → JSNum
  | some a, some b => some (qadd a b)
  | _, _ => none

def jsub : JSNum → JSNum → JSNum
  | some a, some b => some (qsub a b)
  | _, _ => none

def jmul : JSNum → JSNum → JSNum
  | some a, some b => some (qmul a b)
  | _, _ => none

/-- Division; `none` on a zero divisor (JavaScript `±Infinity`/`NaN`, see header). -/
def jdiv : JSNum → JSNum → JSNum
  | some a, some b => if b = 0 then none else some (qdiv a b)
  | _, _ => none

def jge (a b : JSNum) : Bool :=
  match a, b with
  | some a, some b => decide (a ≥ b)
  | _, _ => false

def jgt (a b : JSNum) : Bool :=
  match a, b with
  | some a, some b => decide (a > b)
  | _, _ => false

def jle (a b : JSNum) : Bool :=
  match a, b with
  | some a, some b => decide (a ≤ b)
  | _, _ => false

def jlt (a b : JSNum) : Bool :=
  match a, b with
  | some a, some b => decide (a < b)
  | _, _ => false

def jmin : JSNum → JSNum → JSNum
  | some a, some b => some (min a b)
  | _, _ => none

def jmax : JSNum → JSNum → JSNum
  | some a, some b => some (max a b)
  | _, _ => none

def jfloor : JSNum → JSNum
  | some a => some ((a.floor : Int) : Rat)
  | none => none

def jceil : JSNum → JSNum
  | some a => some ((a.ceil : Int) : Rat)
  | none => none

/-- JavaScript `Math.round`: half-way cases round toward `+∞`. -/
def jround : JSNum → JSNum
  | some a => some (((qadd a (mkRat 1 2)).floor : Int) : Rat)
  | none => none

/-! ## JS string primitives -/

/-- Character class of the `\s` regex escape / `trim`, restricted to ASCII. -/
def jsWhitespace (c : Char) : Bool :=
  c.toNat = 32 || c.toNat = 9 || c.toNat = 10 || c.toNat = 13 || c.toNat = 11 || c.toNat = 12

def isDigitChar (c : Char) : Bool := 48 ≤ c.toNat && c.toNat ≤ 57

def digitVal (c : Char) : Nat := c.toNat - 48

def digitToChar (d : Nat) : Char := Char.ofNat (48 + d)

/-- Leading-digit parse used by `parseInt` after sign handling. -/
def parseIntCore (l : List Char) : Option Int :=
  let ds := l.takeWhile isDigitChar
  if ds = [] then none
  else some ((ds.foldl (fun a c => 10 * a + digitVal c) 0 : Nat) : Int)

/-- JavaScript `parseInt(str, 10)`: skip whitespace, optional sign, leading digits. -/
def parseIntJS (l : List Char) : Option Int :=
  let t := l.dropWhile jsWhitespace
  if t.take 1 = ['-'] then (parseIntCore (t.drop 1)).map (fun n => -n)
  else if t.take 1 = ['+'] then parseIntCore (t.drop 1)
  else parseIntCore t

/-- JavaScript `String.prototype.split` on a single-character class. -/
def splitAtPred (p : Char → Bool) : List Char → List (List Char)
  | [] => [[]]
  | c :: r =>
    if p c then [] :: splitAtPred p r
    else
      match splitAtPred p r with
      | [] => [[c]]
      | h :: t => (c :: h) :: t

/-- JavaScript `startsWith` on char lists (first argument is the candidate head). -/
def startsWithCh : List Char → List Char → Bool
  | [], _ => true
  | _ :: _, [] => false
  | a :: s, b :: t => a = b && startsWithCh (s) t

/-- JavaScript `includes` (substring test): `includesCh s sub`. -/
def includesCh (s sub : List Char) : Bool :=
  s.tails.any (fun t => startsWithCh sub t)

def endsWithCh (s : List Char) (c : Char) : Bool := s.getLast? = some c

def toLowerCh (s : List Char) : List Char := s.map Char.toLower

/-- One step of `split(/\s+/)`: consume a maximal whitespace run. -/
def splitWsAux : Nat → List Char → List Char → List (List Char)
  | _, [], cur => [cur.reverse]
  | 0, l, cur => [cur.reverse ++ l]
  | fuel + 1, c :: r, cur =>
    if jsWhitespace c then cur.reverse :: splitWsAux fuel (r.dropWhile jsWhitespace) []
    else splitWsAux fuel r (c :: cur)

/-- JavaScript `split(/\s+/)`. -/
def jsSplitWs (l : List Char) : List (List Char) := splitWsAux (l.length + 1) l []

/-- Word count as computed by `text.split(/\s+/).length` in the source. -/
def jsWordCount (text : List Char) : Nat := (jsSplitWs text).length

def trimChars (l : List Char) : List Char :=
  ((l.dropWhile jsWhitespace).reverse.dropWhile jsWhitespace).reverse

/-! ## Data model (srt-parser) -/

inductive BPReason
  | long_pause
  | topic_change
  | speaker_change
  | section_break
deriving DecidableEq

inductive Density
  | low
  | medium
  | high
deriving DecidableEq

inductive VideoCategory
  | short
  | medium
  | long
  | very_long
deriving DecidableEq

structure SrtEntry where
  id : Int
  startTime : List Char
  endTime : List Char
  text : List Char
deriving DecidableEq

def defaultEntry : SrtEntry := ⟨0, [], [], []⟩

structure VideoMetadata where
  durationMinutes : JSNum
  durationSeconds : JSNum
  totalEntries : Nat
  averageEntryDuration : JSNum
  estimatedWordsPerMinute : JSNum
  hasLongPauses : Bool
  contentDensity : Density
  videoCategory : VideoCategory
deriving DecidableEq

structure BreakPoint where
  entryIndex : Nat
  timestamp : List Char
  timestampSeconds : JSNum
  confidence : Rat
  reason : BPReason
deriving DecidableEq

/-! ## SRT parser and time codec (srt-parser.ts) -/

/-- Matcher for the separator regex `\r?\n\r?\n` (each `\r?` is greedy). -/
def matchBlankSep (l : List Char) : Option (List Char) :=
  match l with
  | '\r' :: '\n' :: r =>
    (match r with
     | '\r' :: '\n' :: r2 => some r2
     | '\n' :: r2 => some r2
     | _ => none)
  | '\n' :: r =>
    (match r with
     | '\r' :: '\n' :: r2 => some r2
     | '\n' :: r2 => some r2
     | _ => none)
  | _ => none

/-- Matcher for the separator regex `\r?\n`. -/
def matchNlSep (l : List Char) : Option (List Char) :=
  match l with
  | '\r' :: '\n' :: r => some r
  | '\n' :: r => some r
  | _ => none

/-- Generic splitter on a multi-character separator matcher (leftmost match first). -/
def splitBySepAux (sepMatch : List Char → Option (List Char)) :
    Nat → List Char → List Char → List (List Char)
  | _, [], cur => [cur.reverse]
  | 0, l, cur => [cur.reverse ++ l]
  | fuel + 1, c :: r, cur =>
    match sepMatch (c :: r) with
    | some rest => cur.reverse :: splitBySepAux sepMatch fuel rest []
    | none => splitBySepAux sepMatch fuel r (c :: cur)

/-- JavaScript `split(/\r?\n\r?\n/)`. -/
def splitBlocks (l : List Char) : List (List Char) := splitBySepAux matchBlankSep (l.length + 1) l []

/-- JavaScript `split(/\r?\n/)`. -/
def splitLines (l : List Char) : List (List Char) := splitBySepAux matchNlSep (l.length + 1) l []

/-- Shape test for one `HH:MM:SS,mmm` timestamp (12 characters). -/
def isSrtTime (l : List Char) : Bool :=
  match l with
  | [a, b, c, d, e, f, g, h, i, j, k, m] =>
    isDigitChar a && isDigitChar b && c = ':' && isDigitChar d && isDigitChar e && f = ':' &&
    isDigitChar g && isDigitChar h && i = ',' && isDigitChar j && isDigitChar k && isDigitChar m
  | _ => false

/-- Try to match `(\d{2}:\d{2}:\d{2},\d{3}) --> (\d{2}:\d{2}:\d{2},\d{3})` at the head. -/
def tryTimeMatchAt (l : List Char) : Option (List Char × List Char) :=
  let t1 := l.take 12
  let mid := (l.drop 12).take 5
  let t2 := (l.drop 17).take 12
  if isSrtTime t1 && mid = " --> ".data && isSrtTime t2 then some (t1, t2) else none

/-- Leftmost match of the timestamp-line regex anywhere in the line. -/
def findTimeMatch : Nat → List Char → Option (List Char × List Char)
  | 0, _ => none
  | fuel + 1, l =>
    match tryTimeMatchAt l with
    | some r => some r
    | none =>
      match l with
      | [] => none
      | _ :: rest => findTimeMatch fuel rest

/-- Parse of one blank-line-separated block into an entry (`none` means skipped). -/
def parseSrtBlock (block : List Char) : Option SrtEntry :=
  let lines := splitLines block
  if lines.length < 3 then none
  else
    match parseIntJS (trimChars (lines.getD 0 [])) with
    | none => none
    | some id =>
      match findTimeMatch ((lines.getD 1 []).length + 1) (lines.getD 1 []) with
      | none => none
      | some (st, en) =>
        some ⟨id, st, en, trimChars (List.intercalate [' '] (lines.drop 2))⟩

/-- `parseSrtContent` of srt-parser.ts: split the trimmed content into blocks and
keep the well-formed ones. -/
def parseSrtContent (content : List Char) : List SrtEntry :=
  (splitBlocks (trimChars content)).filterMap parseSrtBlock

def isTimeSep (c : Char) : Bool := c = ':' || c = ','

/-- `srtTimeToSeconds` of srt-parser.ts: split on `[,:]`, return `0` unless there are
exactly four fields, else `H*3600 + M*60 + S + ms/1000` (`none` models the `NaN`
produced when a field does not parse). -/
def srtTimeToSeconds (l : List Char) : JSNum :=
  let parts := splitAtPred isTimeSep l
  if parts.length = 4 then
    match parseIntJS (parts.getD 0 []), parseIntJS (parts.getD 1 []),
        parseIntJS (parts.getD 2 []), parseIntJS (parts.getD 3 []) with
    | some h, some m, some s, some ms =>
      some (qadd (qadd (qadd (qmul h 3600) (qmul m 60)) s) (qdiv ms 1000))
    | _, _, _, _ => none
  else some 0

/-- Loop body of `getVideoDuration`: keep the larger of the running maximum and the
entry's end time (comparisons against `NaN` are false, so unparseable entries are
skipped, as in JavaScript). -/
def maxEndStep (acc : JSNum) (e : SrtEntry) : JSNum :=
  let v := srtTimeToSeconds e.endTime
  if jgt v acc then v else acc

/-- `getVideoDuration` of srt-parser.ts: maximum `endTime` in seconds, divided by 60
and rounded up (the comment in the source says "rounded up" explicitly). -/
def getVideoDuration (entries : List SrtEntry) : JSNum :=
  if entries = [] then some 0
  else jceil (jdiv (entries.foldl maxEndStep (some 0)) (some 60))

/-- Long-pause count of the `getVideoMetadata` loop (`pause > 3`). -/
def countLongPauses (entries : List SrtEntry) : Nat :=
  (List.range (entries.length - 1)).countP
    (fun i =>
      jgt
        (jsub (srtTimeToSeconds ((entries.getD (i + 1) defaultEntry).startTime))
          (srtTimeToSeconds ((entries.getD i defaultEntry).endTime)))
        (some 3))

def totalEntryDuration (entries : List SrtEntry) : JSNum :=
  entries.foldl
    (fun acc e => jadd acc (jsub (srtTimeToSeconds e.endTime) (srtTimeToSeconds e.startTime)))
    (some 0)

def totalWords (entries : List SrtEntry) : Nat :=
  entries.foldl (fun acc e => acc + jsWordCount e.text) 0

/-- `getVideoMetadata` of srt-parser.ts. -/
def getVideoMetadata (entries : List SrtEntry) : VideoMetadata :=
  if entries = [] then
    ⟨some 0, some 0, 0, some 0, some 0, false, .low, .short⟩
  else
    let durationSeconds := jmul (getVideoDuration entries) (some 60)
    let durationMinutes := jfloor (jdiv durationSeconds (some 60))
    let averageEntryDuration := jdiv (totalEntryDuration entries) (some (entries.length : Rat))
    let estimatedWordsPerMinute :=
      if jgt durationMinutes (some 0) then
        jround (jdiv (some ((totalWords entries : Nat) : Rat)) durationMinutes)
      else some 0
    let contentDensity : Density :=
      if jlt estimatedWordsPerMinute (some 120) then .low
      else if jgt estimatedWordsPerMinute (some 180) then .high
      else .medium
    let videoCategory : VideoCategory :=
      if jgt durationMinutes (some 180) then .very_long
      else if jgt durationMinutes (some 90) then .long
      else if jgt durationMinutes (some 30) then .medium
      else .short
    ⟨durationMinutes, jfloor durationSeconds, entries.length, averageEntryDuration,
      estimatedWordsPerMinute,
      decide ((countLongPauses entries : Rat) > (entries.length : Rat) * mkRat 1 10),
      contentDensity, videoCategory⟩

/-! ## Break-point detector (srt-parser.ts, `findNaturalBreakPoints`) -/

def topicChangeIndicators : List (List Char) :=
  ["now".data, "next".data, "so".data, "okay".data, "alright".data, "moving on".data,
   "let's".data, "another".data, "different".data, "change".data, "switch".data,
   "turn to".data, "look at".data]

/-- Pause between entry `i` and entry `i+1`. -/
def pauseAt (entries : List SrtEntry) (i : Nat) : JSNum :=
  jsub (srtTimeToSeconds ((entries.getD (i + 1) defaultEntry).startTime))
    (srtTimeToSeconds ((entries.getD i defaultEntry).endTime))

/-- Topic-change cue of `findNaturalBreakPoints`: the next entry's lower-cased text
starts with or contains one of the indicators. -/
def fnbpTopicFires (entries : List SrtEntry) (i : Nat) : Bool :=
  topicChangeIndicators.any
    (fun ind =>
      startsWithCh ind (toLowerCh ((entries.getD (i + 1) defaultEntry).text)) ||
      includesCh (toLowerCh ((entries.getD (i + 1) defaultEntry).text)) ind)

/-- Long-pause cue of `findNaturalBreakPoints` (`pause ≥ 3`). -/
def fnbpLongPauseFires (entries : List SrtEntry) (i : Nat) : Bool :=
  jge (pauseAt entries i) (some 3)

/-- Section-break cue of `findNaturalBreakPoints`: `pause ≥ 1.5` and the current
entry's lower-cased text ends in `.`, `?` or `!`. -/
def fnbpSectionFires (entries : List SrtEntry) (i : Nat) : Bool :=
  jge (pauseAt entries i) (some (mkRat 3 2)) &&
    (endsWithCh (toLowerCh ((entries.getD i defaultEntry).text)) '.' ||
     endsWithCh (toLowerCh ((entries.getD i defaultEntry).text)) '?' ||
     endsWithCh (toLowerCh ((entries.getD i defaultEntry).text)) '!')

/-- Loop body of `findNaturalBreakPoints` for the adjacent pair `(i, i+1)`. -/
def breakPointAt (entries : List SrtEntry) (i : Nat) : Option BreakPoint :=
  let c1 : Rat := if fnbpLongPauseFires entries i then mkRat 2 5 else 0
  let c2 : Rat := if fnbpTopicFires entries i then qadd c1 (mkRat 3 10) else c1
  let r2 : BPReason := if fnbpTopicFires entries i then .topic_change else .long_pause
  let c3 : Rat := if fnbpSectionFires entries i then qadd c2 (mkRat 1 5) else c2
  let r3 : BPReason := if fnbpSectionFires entries i then .section_break else r2
  if mkRat 3 10 ≤ c3 then
    some ⟨i + 1, (entries.getD (i + 1) defaultEntry).startTime,
      srtTimeToSeconds ((entries.getD (i + 1) defaultEntry).startTime), min c3 1, r3⟩
  else none

/-- Insertion step of the confidence-descending sort. -/
def insertByConf (b : BreakPoint) : List BreakPoint → List BreakPoint
  | [] => [b]
  | h :: t => if b.confidence > h.confidence then b :: h :: t else h :: insertByConf b t

/-- Sort by confidence, highest first (the `sort((a, b) => b.confidence - a.confidence)`
of the source). -/
def sortByConfDesc : List BreakPoint → List BreakPoint
  | [] => []
  | h :: t => insertByConf h (sortByConfDesc t)

/-- `findNaturalBreakPoints` of srt-parser.ts. -/
def findNaturalBreakPoints (entries : List SrtEntry) : List BreakPoint :=
  if entries.length < 2 then []
  else sortByConfDesc ((List.range (entries.length - 1)).filterMap (breakPointAt entries))

/-! ## Video analyzer (video-analyzer.ts) -/

inductive Strategy
  | simple
  | standard
  | complex
  | enterprise
deriving DecidableEq

inductive Quality
  | basic
  | good
  | excellent
  | premium
deriving DecidableEq

inductive Approach
  | focused
  | balanced
  | comprehensive
deriving DecidableEq

structure VideoAnalysis where
  optimalTimestampCount : Int
  recommendedChunkCount : Int
  chunkDurationMinutes : JSNum
  processingStrategy : Strategy
  estimatedProcessingTime : JSNum
  qualityExpectation : Quality
deriving DecidableEq

structure ContentDensityAnalysis where
  wordsPerMinute : JSNum
  pauseFrequency : Rat
  topicChangeFrequency : Rat
  complexityScore : JSNum
  recommendedApproach : Approach
deriving DecidableEq

/-- `categorizeVideoLength` of video-analyzer.ts. -/
def categorizeVideoLength (durationMinutes : JSNum) : VideoCategory :=
  if jle durationMinutes (some 30) then .short
  else if jle durationMinutes (some 90) then .medium
  else if jle durationMinutes (some 180) then .long
  else .very_long

/-- `analyzeContentDensity` of video-analyzer.ts. -/
def analyzeContentDensity (m : VideoMetadata) : ContentDensityAnalysis :=
  let pauseFrequency : Rat := if m.hasLongPauses then mkRat 4 5 else mkRat 3 10
  let topicChangeFrequency : Rat :=
    if m.contentDensity = .high then mkRat 7 10
    else if m.contentDensity = .low then mkRat 3 10
    else mkRat 1 2
  let complexityScore :=
    jmin (some 1)
      (jadd
        (jadd (jmul (jdiv m.estimatedWordsPerMinute (some 200)) (some (mkRat 2 5)))
          (some (qmul pauseFrequency (mkRat 3 10))))
        (some (qmul topicChangeFrequency (mkRat 3 10))))
  let recommendedApproach : Approach :=
    if jgt complexityScore (some (mkRat 7 10)) then .comprehensive
    else if jlt complexityScore (some (mkRat 2 5)) then .focused
    else .balanced
  ⟨m.estimatedWordsPerMinute, pauseFrequency, topicChangeFrequency, complexityScore,
    recommendedApproach⟩

/-- `determineProcessingStrategy` of video-analyzer.ts: the branches are tested in
source order (simple, then complex, then enterprise, else standard). -/
def determineProcessingStrategy (m : VideoMetadata) (ca : ContentDensityAnalysis) : Strategy :=
  if m.videoCategory = .short && jlt ca.complexityScore (some (mkRat 2 5)) then .simple
  else if m.videoCategory = .very_long || jgt ca.complexityScore (some (mkRat 4 5)) then .complex
  else if jgt m.durationMinutes (some 240) then .enterprise
  else .standard

/-! ## Timestamp normalizer (timestamp-utils/normalizer.ts) -/

def isColon (c : Char) : Bool := c = ':'

structure ChunkingOptions where
  targetDurationMinutes : Rat
  maxDurationMinutes : Rat
  minDurationMinutes : Rat
  overlapSeconds : Rat
  respectNaturalBreaks : Bool
  prioritizeIntroOutro : Bool
deriving DecidableEq

def DEFAULT_CHUNKING_OPTIONS : ChunkingOptions :=
  ⟨6, 8, 4, 30, true, true⟩

structure SrtChunk where
  id : Nat
  startTime : List Char
  endTime : List Char
  startSeconds : JSNum
  endSeconds : JSNum
  durationMinutes : JSNum
  entries : List SrtEntry
  entryCount : Nat
  wordCount : Nat
  breakPointReason : Option BPReason
  confidence : JSNum
  isIntro : Bool
  isOutro : Bool
  hasNaturalBreak : Bool
deriving DecidableEq

def chunkTopicIndicators : List (List Char) :=
  ["now".data, "next".data, "so".data, "okay".data, "alright".data, "moving on".data,
   "let's".data, "another".data, "different".data, "change".data, "switch".data,
   "turn to".data, "look at".data, "speaking of".data]

/-- Ending-punctuation test of `findNearestBreakPoint` (`/[.!?]$/`). -/
def endsSentence (s : List Char) : Bool :=
  endsWithCh s '.' || endsWithCh s '!' || endsWithCh s '?'

/-- Pause-and-text score (before the distance penalty) computed by the loop body of
`findNearestBreakPoint` at window position `i`, together with the reason variable's
final value. -/
def inlineBreakBase (entries : List SrtEntry) (i : Nat) : Rat × BPReason :=
  let pause := pauseAt entries i
  let s1 : Rat × BPReason :=
    if jge pause (some 3) then (mkRat 3 5, .long_pause)
    else if jge pause (some (mkRat 3 2)) then (mkRat 3 10, .section_break)
    else (0, .long_pause)
  let s2 : Rat × BPReason :=
    if chunkTopicIndicators.any
        (fun ind => includesCh (toLowerCh ((entries.getD (i + 1) defaultEntry).text)) ind) then
      (qadd s1.1 (mkRat 2 5), .topic_change)
    else s1
  if endsSentence (toLowerCh ((entries.getD i defaultEntry).text)) then
    (qadd s2.1 (mkRat 1 5), s2.2)
  else s2

/-- Full inline score of `findNearestBreakPoint` at window position `i`, including
the distance penalty `(|i - currentIndex| / searchRange) * 0.2`. -/
def inlineBreakScore (entries : List SrtEntry) (currentIndex : Nat) (range : Rat) (i : Nat) :
    JSNum :=
  jsub (some (inlineBreakBase entries i).1)
    (jmul (jdiv (some ((((i : Int) - (currentIndex : Int)).natAbs : Nat) : Rat)) (some range))
      (some (mkRat 1 5)))

/-- Window positions scanned by `findNearestBreakPoint`: from
`max(startIndex, currentIndex - ⌊range/2⌋)` to
`min(entries.length - 1, currentIndex + ⌊range/2⌋)`, stopping at the
`i >= entries.length - 1` break. -/
def windowIdxs (n currentIndex startIndex : Nat) (range : Rat) : List Nat :=
  let half : Int := (qdiv range 2).floor
  let searchStart : Int := max (startIndex : Int) ((currentIndex : Int) - half)
  let stop : Int := min (min ((n : Int) - 1) ((currentIndex : Int) + half)) ((n : Int) - 2)
  (List.range (stop + 1 - searchStart).toNat).map (fun k => searchStart.toNat + k)

def bestScoreOf : Option (Nat × BPReason × JSNum) → JSNum
  | some b => b.2.2
  | none => none

/-- Loop body of `findNearestBreakPoint`: keep the candidate at window position `i`
when its score clears 0.4 and strictly beats the best so far
(`score > 0.4 && (!bestBreakPoint || score > bestBreakPoint.score)`). -/
def bestStep (score : Nat → JSNum) (rsn : Nat → BPReason)
    (best : Option (Nat × BPReason × JSNum)) (i : Nat) : Option (Nat × BPReason × JSNum) :=
  if jgt (score i) (some (mkRat 2 5)) && (best.isNone || jgt (score i) (bestScoreOf best)) then
    some (i, rsn i, score i)
  else best

/-- `findNearestBreakPoint` of chunk-processor.ts. -/
def findNearestBreakPoint (entries : List SrtEntry) (currentIndex startIndex : Nat)
    (searchRange : JSNum) : Option (Nat × BPReason) :=
  match searchRange with
  | none => none
  | some range =>
    ((windowIdxs entries.length currentIndex startIndex range).foldl
        (bestStep (inlineBreakScore entries currentIndex range)
          (fun i => (inlineBreakBase entries i).2))
        none).map
      (fun b => (b.1, b.2.1))

/-- `for` loop of `createSingleChunk` that searches the chunk's end point; returns
`(endIndex, bestBreakReason, currentDuration)`. The fuel argument mirrors the
remaining iterations and is always called with at least `entries.length`. -/
def scanLoop (entries : List SrtEntry) (startIndex : Nat) (startSeconds target maxDur : JSNum)
    (respect : Bool) (searchRange : JSNum) :
    Nat → Nat → Nat → JSNum → Nat × Option BPReason × JSNum
  | 0, _, endIx, cur => (endIx, none, cur)
  | fuel + 1, i, endIx, cur =>
    if i < entries.length then
      let d := jsub (srtTimeToSeconds ((entries.getD i defaultEntry).endTime)) startSeconds
      if jge d target then
        match (if respect then findNearestBreakPoint entries i startIndex searchRange else none) with
        | some br => (br.1, some br.2, d)
        | none => if jle d maxDur then (i, none, d) else (max startIndex (i - 1), none, d)
      else scanLoop entries startIndex startSeconds target maxDur respect searchRange fuel (i + 1) i d
    else (endIx, none, cur)

/-- Result of the scan loop for a chunk starting at `startIndex`. -/
def chunkScan (entries : List SrtEntry) (startIndex : Nat) (target maxDur : Rat)
    (options : ChunkingOptions) : Nat × Option BPReason × JSNum :=
  scanLoop entries startIndex (srtTimeToSeconds ((entries.getD startIndex defaultEntry).startTime))
    (some target) (some maxDur) options.respectNaturalBreaks (some (qsub maxDur target))
    entries.length startIndex startIndex (some 0)

/-- Final `endIndex` of `createSingleChunk`, after the minimum-duration extension. -/
def chunkEndIndex (entries : List SrtEntry) (startIndex : Nat) (target maxDur minDur : Rat)
    (options : ChunkingOptions) : Nat :=
  let r := chunkScan entries startIndex target maxDur options
  if jlt r.2.2 (some minDur) && decide (r.1 < entries.length - 1) then
    max r.1
      (min ((entries.length : Int) - 1)
          ((startIndex : Int) +
            (qmul ((entries.length - startIndex : Nat) : Rat) (qdiv minDur target)).floor)).toNat
  else r.1

/-- `calculateChunkConfidence` of chunk-processor.ts. -/
def calculateChunkConfidence (actualDuration target : JSNum) (hasNaturalBreak : Bool)
    (wordCount entryCount : Nat) : JSNum :=
  let c1 := jadd (some (mkRat 1 2))
    (jmul (jdiv (jmin actualDuration target) (jmax actualDuration target)) (some (mkRat 3 10)))
  let c2 := if hasNaturalBreak then jadd c1 (some (mkRat 1 5)) else c1
  let wps := jdiv (some ((wordCount : Nat) : Rat)) actualDuration
  let c3 := if jge wps (some 2) && jle wps (some 4) then jadd c2 (some (mkRat 1 10)) else c2
  let epm := jmul (jdiv (some ((entryCount : Nat) : Rat)) actualDuration) (some 60)
  let c4 := if jge epm (some 10) && jle epm (some 30) then jadd c3 (some (mkRat 1 10)) else c3
  jmax (some 0) (jmin (some 1) c4)

/-- `createSingleChunk` of chunk-processor.ts. -/
def createSingleChunk (entries : List SrtEntry) (startIndex : Nat) (target maxDur minDur : Rat)
    (chunkId : Nat) (options : ChunkingOptions) : SrtChunk :=
  let startEntry := entries.getD startIndex defaultEntry
  let startSeconds := srtTimeToSeconds startEntry.startTime
  let scan := chunkScan entries startIndex target maxDur options
  let endIndex := chunkEndIndex entries startIndex target maxDur minDur options
  let chunkEntries := (entries.drop startIndex).take (endIndex + 1 - startIndex)
  let endSeconds := srtTimeToSeconds ((chunkEntries.getLastD defaultEntry).endTime)
  let actualDuration := jsub endSeconds startSeconds
  let wordCount := chunkEntries.foldl (fun acc e => acc + jsWordCount e.text) 0
  let hasNaturalBreak := scan.2.1.isSome
  ⟨chunkId, startEntry.startTime, (chunkEntries.getLastD defaultEntry).endTime, startSeconds,
    endSeconds, jdiv (jround (jmul (jdiv actualDuration (some 60)) (some 10))) (some 10),
    chunkEntries, chunkEntries.length, wordCount, scan.2.1,
    calculateChunkConfidence actualDuration (some target) hasNaturalBreak wordCount
      chunkEntries.length,
    chunkId = 1, decide (entries.length - 1 ≤ endIndex), hasNaturalBreak⟩

/-- Backward walk of `calculateNextChunkStart`: largest `i ≤ k` whose entry starts at
or before `overlapStartTime`. -/
def overlapWalk (allEntries : List SrtEntry) (overlapStartTime : JSNum) : Nat → Option Nat
  | 0 =>
    if jle (srtTimeToSeconds ((allEntries.getD 0 defaultEntry).startTime)) overlapStartTime then
      some 0
    else none
  | k + 1 =>
    if jle (srtTimeToSeconds ((allEntries.getD (k + 1) defaultEntry).startTime))
        overlapStartTime then
      some (k + 1)
    else overlapWalk allEntries overlapStartTime k

/-- `calculateNextChunkStart` of chunk-processor.ts. `none` models the `TypeError`
raised when `lastEntryIndex` (derived from the entry's declared `id`, not its
position) is at or beyond the end of the array. -/
def calculateNextChunkStart (chunk : SrtChunk) (allEntries : List SrtEntry)
    (options : ChunkingOptions) : Option Int :=
  let lastEntryIndex : Int := (chunk.entries.getLastD defaultEntry).id - 1
  if options.overlapSeconds = 0 then some (lastEntryIndex + 1)
  else if lastEntryIndex < 0 then some (max 0 lastEntryIndex)
  else if (allEntries.length : Int) ≤ lastEntryIndex then none
  else
    match overlapWalk allEntries (jsub chunk.endSeconds (some options.overlapSeconds))
        lastEntryIndex.toNat with
    | some i => some (max 0 (i : Int))
    | none => some (max 0 lastEntryIndex)

def strategyMultiplier : Strategy → Rat
  | .simple => mkRat 9 10
  | .standard => 1
  | .complex => mkRat 11 10
  | .enterprise => mkRat 6 5

def setIntroFlag (c : SrtChunk) : SrtChunk := { c with isIntro := true }

def setOutroFlag (c : SrtChunk) : SrtChunk := { c with isOutro := true }

def modifyLastChunk (f : SrtChunk → SrtChunk) (l : List SrtChunk) : List SrtChunk :=
  ((l.reverse.modifyHead f).reverse)

/-- `postProcessChunks` of chunk-processor.ts. -/
def postProcessChunks (chunks : List SrtChunk) (analysis : VideoAnalysis) : List SrtChunk :=
  if chunks = [] then chunks
  else
    let cs :=
      if analysis.processingStrategy = .complex ∨ analysis.processingStrategy = .enterprise then
        modifyLastChunk setOutroFlag (chunks.modifyHead setIntroFlag)
      else chunks
    cs.map
      (fun c =>
        { c with
          confidence :=
            jmin (some 1)
              (jmul c.confidence (some (strategyMultiplier analysis.processingStrategy))) })

/-- `while` loop of `createTimeBasedChunks`, with explicit fuel. `none` means the
loop has not finished within `fuel` iterations (or crashed in
`calculateNextChunkStart`, or entered a negative index). -/
def chunkGo (entries : List SrtEntry) (options : ChunkingOptions) (target maxDur minDur : Rat) :
    Nat → Int → Nat → List SrtChunk → Option (List SrtChunk)
  | 0, _, _, _ => none
  | fuel + 1, s, chunkId, acc =>
    if s < (entries.length : Int) then
      if 0 ≤ s then
        match calculateNextChunkStart
            (createSingleChunk entries s.toNat target maxDur minDur chunkId options) entries
            options with
        | none => none
        | some nxt =>
          chunkGo entries options target maxDur minDur fuel
            (if nxt ≤
                  (((createSingleChunk entries s.toNat target maxDur minDur chunkId
                          options).entries.getLastD defaultEntry).id) then
              nxt + 1
            else nxt)
            (chunkId + 1) (acc ++ [createSingleChunk entries s.toNat target maxDur minDur chunkId options])
      else none
    else some acc

/-- `createTimeBasedChunks` of chunk-processor.ts (fuel-indexed). -/
def createTimeBasedChunks (entries : List SrtEntry) (analysis : VideoAnalysis)
    (options : ChunkingOptions) (fuel : Nat) : Option (List SrtChunk) :=
  if entries = [] then some []
  else
    (chunkGo entries options (qmul options.targetDurationMinutes 60)
          (qmul options.maxDurationMinutes 60) (qmul options.minDurationMinutes 60) fuel 0 1
          []).map
      (fun cs => postProcessChunks cs analysis)

/-! ## Output schema (schemas.ts, `timestampsOutputSchema`) -/

structure TimestampItem where
  time : List Char
  description : List Char
deriving DecidableEq

structure TimestampsOutput where
  timestamps : List TimestampItem
  requestedCount : Int
  actualCount : Int
  videoMaxTime : Option (List Char)
deriving DecidableEq

/-- Regex `^\d{1,2}:\d{2}(:\d{2})?$` of `timestampSchema`. -/
def timeRegexOK (l : List Char) : Bool :=
  match l with
  | [a, ':', c, d] => isDigitChar a && isDigitChar c && isDigitChar d
  | [a, b, ':', c, d] =>
    isDigitChar a && isDigitChar b && isDigitChar c && isDigitChar d
  | [a, ':', c, d, ':', e, f] =>
    isDigitChar a && isDigitChar c && isDigitChar d && isDigitChar e && isDigitChar f
  | [a, b, ':', c, d, ':', e, f] =>
    isDigitChar a && isDigitChar b && isDigitChar c && isDigitChar d && isDigitChar e &&
      isDigitChar f
  | _ => false

/-- Seconds conversion used inside the distribution refinement (`MM:SS` or
`HH:MM:SS`; other shapes map to 0; missing parses default to 0, which is
unreachable once the base regex has accepted the item). -/
def tsSeconds (l : List Char) : Int :=
  let parts := (splitAtPred isColon l).map (fun p => (parseIntJS p).getD 0)
  if parts.length = 2 then parts.getD 0 0 * 60 + parts.getD 1 0
  else if parts.length = 3 then
    parts.getD 0 0 * 3600 + parts.getD 1 0 * 60 + parts.getD 2 0
  else 0

def insertAscInt (x : Int) : List Int → List Int
  | [] => [x]
  | h :: t => if x ≤ h then x :: h :: t else h :: insertAscInt x t

def sortAscInt : List Int → List Int
  | [] => []
  | h :: t => insertAscInt h (sortAscInt t)

/-- Distribution refinement of `timestampsOutputSchema`: with at least 3 timestamps,
reject when all but at most one of them fall within the first 20% of the maximum
time. -/
def distributionOK (d : TimestampsOutput) : Bool :=
  if 3 ≤ d.timestamps.length then
    let times := sortAscInt (d.timestamps.map (fun t => tsSeconds t.time))
    let maxTime := times.getLastD 0
    let clustered := times.countP (fun t => (t : Rat) ≤ qmul (maxTime : Rat) (mkRat 1 5))
    !(d.timestamps.length - 1 ≤ clustered)
  else true

/-- Acceptance predicate of `timestampsOutputSchema`: the base object/array/string
constraints plus the four `refine` steps (count consistency, exact-duplicate
rejection via a `Set`, exact requested count, and the distribution check). -/
def timestampsOutputAccepts (d : TimestampsOutput) : Bool :=
  (1 ≤ d.timestamps.length) &&
  d.timestamps.all
    (fun t => timeRegexOK t.time && 1 ≤ t.description.length && t.description.length ≤ 100) &&
  (3 ≤ d.requestedCount && d.requestedCount ≤ 25) &&
  (1 ≤ d.actualCount) &&
  (d.actualCount = (d.timestamps.length : Int)) &&
  ((d.timestamps.map (fun t => t.time)).dedup.length = d.timestamps.length) &&
  ((d.timestamps.length : Int) = d.requestedCount) &&
  distributionOK d

/-! ## Concrete inputs used by counterexamples and witnesses -/

/-- Two benign entries 39 seconds apart: the overlap walk-back of
`calculateNextChunkStart` steps behind the current chunk start and the loop of
`createTimeBasedChunks` re-enters the same state forever. -/
def exEntriesLoop : List SrtEntry :=
  [⟨1, "00:00:00,000".data, "00:00:01,000".data, "a".data⟩,
   ⟨2, "00:00:40,000".data, "00:00:41,000".data, "b".data⟩]

/-- Two entries with equal start times: the run terminates but consecutive chunks
share the same `startSeconds`. -/
def exEntriesEqStart : List SrtEntry :=
  [⟨1, "00:00:00,000".data, "00:06:00,000".data, "a".data⟩,
   ⟨2, "00:00:00,000".data, "00:06:01,000".data, "b".data⟩]

/-- Adjacent pair with a 4-second pause, sentence-final period and a topic cue:
all three detector cues fire. -/
def exEntriesAllCues : List SrtEntry :=
  [⟨1, "00:00:50,000".data, "00:01:00,000".data, "done.".data⟩,
   ⟨2, "00:01:04,000".data, "00:01:10,000".data, "now more".data⟩]

/-- Adjacent pair with a 2-second pause after a sentence-final period: the inline
scorer of the segmenter accepts it, the break-point detector does not emit it. -/
def exEntriesPause2 : List SrtEntry :=
  [⟨1, "00:05:55,000".data, "00:06:00,000".data, "done.".data⟩,
   ⟨2, "00:06:02,000".data, "00:06:05,000".data, "b".data⟩]

/-- Single entry ending at 61.5 seconds. -/
def exEntriesHalfMinute : List SrtEntry :=
  [⟨1, "00:00:01,000".data, "00:01:01,500".data, "a".data⟩]

/-- Consistent metadata of a 300-minute video (category `very_long` as computed by
`categorizeVideoLength`). -/
def exMetadata300 : VideoMetadata :=
  ⟨some 300, some 18000, 100, some 2, some 150, false, .medium, .very_long⟩

/-- An arbitrary analysis record with the `standard` strategy, used where the chunk
segmenter needs one. -/
def stdAnalysis : VideoAnalysis :=
  ⟨7, 10, some 6, .standard, some 60, .good⟩

/-- Accepted output with two timestamps 2 seconds apart ("00:01" and "00:03") and
out of chronological order. -/
def exOutputNearDup : TimestampsOutput :=
  ⟨[⟨"00:01".data, "a".data⟩, ⟨"05:00".data, "b".data⟩, ⟨"00:03".data, "c".data⟩,
    ⟨"09:00".data, "d".data⟩], 4, 4, none⟩

/-! ## Supporting lemmas: digits, parseInt round-trips, splitters -/

theorem digitToChar_toNat (d : Nat) (h : d < 10) : (digitToChar d).toNat = 48 + d := by
  interval_cases d <;> decide

/-- C10: `srtTimeToSeconds` is total and returns `0` (not an error) for every string
that does not split into exactly four fields on `:` and `,`; in particular the
well-formed but millisecond-less timestamp `"01:02:03"` is mapped to `0` seconds. -/
theorem srtTimeToSeconds_default_zero :
    (∀ l : List Char,
        (splitAtPred isTimeSep l).length ≠ 4 → srtTimeToSeconds l = some 0) ∧
    srtTimeToSeconds ("01:02:03".data) = some 0 := by
  constructor
  · intro l h
    unfold srtTimeToSeconds
    simp only [h, if_false]
  · decide

/-- Witness for C10 at the concrete input `"01:02:03"`. -/
theorem srtTimeToSeconds_default_zero_witness :
    (splitAtPred isTimeSep ("01:02:03".data)).length ≠ 4 ∧
      srtTimeToSeconds ("01:02:03".data) = some 0 :=
  ⟨by decide, srtTimeToSeconds_default_zero.1 ("01:02:03".data) (by decide)⟩

/-- C7: `parseSrtContent` is total (never throws), produces at most one entry per
blank-line-separated block of the (trimmed) input, and returns `[]` on empty
input; blocks with fewer than 3 lines, an unparseable id line, or no
`HH:MM:SS,mmm --> HH:MM:SS,mmm` match on the timestamp line are skipped by
`parseSrtBlock` returning `none`. -/
theorem parseSrtContent_robust :
    (∀ content : List Char,
        (parseSrtContent content).length ≤ (splitBlocks (trimChars content)).length) ∧
    parseSrtContent [] = [] := by
  constructor
  · intro content
    unfold parseSrtContent
    exact List.length_filterMap_le parseSrtBlock (splitBlocks (trimChars content))
  · decide

theorem mem_insertByConf (x b : BreakPoint) (l : List BreakPoint) :
    x ∈ insertByConf b l ↔ x = b ∨ x ∈ l := by
  induction l with
  | nil => simp [insertByConf]
  | cons h t ih =>
    unfold insertByConf
    split
    · simp [List.mem_cons]
    · simp only [List.mem_cons, ih]
      tauto

theorem mem_sortByConfDesc (x : BreakPoint) (l : List BreakPoint) :
    x ∈ sortByConfDesc l ↔ x ∈ l := by
  induction l with
  | nil => simp [sortByConfDesc]
  | cons h t ih => simp [sortByConfDesc, mem_insertByConf, ih]

theorem breakPointAt_fields (entries : List SrtEntry) (i : Nat) (bp : BreakPoint)
    (h : breakPointAt entries i = some bp) :
    bp.entryIndex = i + 1 ∧
      bp.reason =
        (if fnbpSectionFires entries i then BPReason.section_break
         else if fnbpTopicFires entries i then BPReason.topic_change
         else BPReason.long_pause) := by
  unfold breakPointAt at h
  by_cases hl : fnbpLongPauseFires entries i = true <;>
    by_cases ht : fnbpTopicFires entries i = true <;>
      by_cases hs : fnbpSectionFires entries i = true
  all_goals
    simp only [Bool.not_eq_true] at hl ht hs
  all_goals
    simp only [hl, ht, hs, if_true, if_false, Bool.false_eq_true] at h ⊢
  all_goals
    first
      | (rw [if_pos (by decide)] at h; injection h with h; subst h; exact ⟨rfl, rfl⟩)
      | (rw [if_neg (by decide)] at h; exact absurd h (by simp))

/-- C3 counterexample: at a pair where all three cues fire (pause of 4 s, topic
indicator "now", sentence-final period), the long-pause cue contributes the
largest component (0.4), yet the emitted reason is `section_break`, not
`long_pause` as the claim requires. -/
theorem findNaturalBreakPoints_reason_counterexample :
    (findNaturalBreakPoints exEntriesAllCues).map (fun bp => bp.reason) =
        [BPReason.section_break] ∧
      fnbpLongPauseFires exEntriesAllCues 0 = true ∧
      fnbpTopicFires exEntriesAllCues 0 = true ∧
      fnbpSectionFires exEntriesAllCues 0 = true := by
  decide

/-- C3 (amended): the `reason` of every retained break point is the LAST cue that
fired in detection order (each firing cue overwrites `reason`): `section_break`
when the section-break cue fires, else `topic_change` when the topic cue fires,
else `long_pause`. A firing `section_break` cue therefore does displace
`topic_change`. -/
theorem findNaturalBreakPoints_reason_last_cue (entries : List SrtEntry) (bp : BreakPoint)
    (h : bp ∈ findNaturalBreakPoints entries) :
    1 ≤ bp.entryIndex ∧
      bp.reason =
        (if fnbpSectionFires entries (bp.entryIndex - 1) then BPReason.section_break
         else if fnbpTopicFires entries (bp.entryIndex - 1) then BPReason.topic_change
         else BPReason.long_pause) := by
  unfold findNaturalBreakPoints at h
  split at h
  · exact absurd h (by simp)
  · rw [mem_sortByConfDesc, List.mem_filterMap] at h
    obtain ⟨i, _, hsome⟩ := h
    obtain ⟨hidx, hreason⟩ := breakPointAt_fields entries i bp hsome
    refine ⟨by omega, ?_⟩
    rw [hreason, hidx]
    simp

/-- Witness for C3 (amended) at the all-cues-firing concrete input. -/
theorem findNaturalBreakPoints_reason_last_cue_witness :
    (⟨1, "00:01:04,000".data, some 64, mkRat 9 10, BPReason.section_break⟩ : BreakPoint) ∈
        findNaturalBreakPoints exEntriesAllCues ∧
      (1 ≤ 1 ∧
        (⟨1, "00:01:04,000".data, some 64, mkRat 9 10, BPReason.section_break⟩ :
              BreakPoint).reason =
          (if fnbpSectionFires exEntriesAllCues 0 then BPReason.section_break
           else if fnbpTopicFires exEntriesAllCues 0 then BPReason.topic_change
           else BPReason.long_pause)) :=
  ⟨by decide,
    findNaturalBreakPoints_reason_last_cue exEntriesAllCues
      ⟨1, "00:01:04,000".data, some 64, mkRat 9 10, BPReason.section_break⟩ (by decide)⟩

/-! ## Bridges between the reducible rational wrappers and the field operations -/

theorem qnum_cast_eq (a : Rat) : (a.num : ℚ) = a * a.den := by
  have hden : ((a.den : Nat) : ℚ) ≠ 0 := by
    exact_mod_cast Nat.cast_ne_zero.mpr a.den_nz
  have h := Rat.num_div_den a
  rw [div_eq_iff hden] at h
  exact h

theorem qadd_eq (a b : Rat) : qadd a b = a + b := by
  unfold qadd
  rw [Rat.mkRat_eq_div]
  push_cast
  rw [qnum_cast_eq, qnum_cast_eq, div_eq_iff (by positivity)]
  ring

theorem qsub_eq (a b : Rat) : qsub a b = a - b := by
  unfold qsub
  rw [Rat.mkRat_eq_div]
  push_cast
  rw [qnum_cast_eq, qnum_cast_eq, div_eq_iff (by positivity)]
  ring

theorem qmul_eq (a b : Rat) : qmul a b = a * b := by
  unfold qmul
  rw [Rat.mkRat_eq_div]
  push_cast
  rw [qnum_cast_eq, qnum_cast_eq, div_eq_iff (by positivity)]
  ring

theorem qinv_eq (a : Rat) : qinv a = a⁻¹ := by
  rcases eq_or_ne a 0 with rfl | ha
  · rw [inv_zero]
    decide
  · have hnum : a.num ≠ 0 := Rat.num_ne_zero.mpr ha
    have key2 : a.num.sign * a.num = (a.num.natAbs : Int) := by
      rcases lt_trichotomy a.num 0 with hn | hn | hn
      · rw [Int.sign_eq_neg_one_of_neg hn]; omega
      · exact absurd hn hnum
      · rw [Int.sign_eq_one_of_pos hn]; omega
    have hnatAbs : ((a.num.natAbs : Nat) : ℚ) ≠ 0 := by
      exact_mod_cast Nat.cast_ne_zero.mpr (Int.natAbs_ne_zero.mpr hnum)
    refine eq_inv_of_mul_eq_one_left ?_
    unfold qinv
    rw [Rat.mkRat_eq_div, div_mul_eq_mul_div, div_eq_one_iff_eq hnatAbs]
    push_cast
    calc ((a.num.sign : ℚ) * (a.den : ℚ)) * a = (a.num.sign : ℚ) * (a * a.den) := by ring
      _ = (a.num.sign : ℚ) * (a.num : ℚ) := by rw [← qnum_cast_eq]
      _ = ((a.num.sign * a.num : Int) : ℚ) := by push_cast; ring
      _ = ((a.num.natAbs : Int) : ℚ) := by rw [key2]
      _ = (a.num.natAbs : ℚ) := by rw [Int.cast_natCast]

theorem qdiv_eq (a b : Rat) : qdiv a b = a / b := by
  rw [qdiv, qmul_eq, qinv_eq, div_eq_mul_inv]

theorem ratCeil_eq_ceil (q : Rat) : (q.ceil : Int) = Int.ceil q := by
  rcases eq_or_ne q.den 1 with hd | hd
  · rw [Rat.ceil, if_pos hd]
    have hq : ((q.num : Int) : ℚ) = q := by
      have h := Rat.num_div_den q
      rw [hd] at h
      push_cast at h
      simpa using h
    conv_rhs => rw [← hq]
    rw [Int.ceil_intCast]
  · rw [Rat.ceil, if_neg hd]
    have hfl : q.num / (q.den : Int) = Int.floor q := Rat.floor_def.symm
    rw [hfl]
    symm
    rw [Int.ceil_eq_iff]
    have h1 : ((Int.floor q : Int) : ℚ) ≤ q := Int.floor_le q
    have hne2 : ((Int.floor q : Int) : ℚ) ≠ q := by
      intro hh
      apply hd
      rw [← hh]
      exact Rat.den_intCast _
    have h2 : ((Int.floor q : Int) : ℚ) < q := lt_of_le_of_ne h1 hne2
    have h3 : q < (Int.floor q : Int) + 1 := Int.lt_floor_add_one q
    constructor
    · push_cast
      linarith
    · push_cast
      linarith

theorem ratFloor_eq_floor (q : Rat) : (q.floor : Int) = Int.floor q := rfl

theorem jceil_some (a : Rat) : jceil (some a) = some ((Int.ceil a : Int) : ℚ) := by
  rw [jceil, ratCeil_eq_ceil]

theorem jfloor_intCast (z : Int) : jfloor (some ((z : Int) : ℚ)) = some ((z : Int) : ℚ) := by
  rw [jfloor]
  rw [ratFloor_eq_floor, Int.floor_intCast]

theorem maxEndFold_spec :
    ∀ (l : List SrtEntry) (a : Rat),
      ∃ q : Rat,
        l.foldl maxEndStep (some a) = some q ∧
          a ≤ q ∧
          (∀ e ∈ l, ∀ x : Rat, srtTimeToSeconds e.endTime = some x → x ≤ q) ∧
          (q = a ∨ ∃ e ∈ l, srtTimeToSeconds e.endTime = some q) := by
  intro l
  induction l with
  | nil =>
    intro a
    exact ⟨a, rfl, le_refl a, by simp, Or.inl rfl⟩
  | cons e l ih =>
    intro a
    simp only [List.foldl_cons]
    cases hv : srtTimeToSeconds e.endTime with
    | none =>
      have hstep : maxEndStep (some a) e = some a := by
        unfold maxEndStep
        rw [hv]
        rfl
      rw [hstep]
      obtain ⟨q, hfold, hle, hub, hat⟩ := ih a
      refine ⟨q, hfold, hle, ?_, ?_⟩
      · intro e2 he2 x hx
        rcases List.mem_cons.1 he2 with rfl | he2
        · rw [hv] at hx; exact absurd hx (by simp)
        · exact hub e2 he2 x hx
      · rcases hat with h | ⟨e2, he2, hq⟩
        · exact Or.inl h
        · exact Or.inr ⟨e2, by simp [he2], hq⟩
    | some x =>
      by_cases hgt : x > a
      · have hstep : maxEndStep (some a) e = some x := by
          unfold maxEndStep
          rw [hv]
          simp [jgt, hgt]
        rw [hstep]
        obtain ⟨q, hfold, hle, hub, hat⟩ := ih x
        refine ⟨q, hfold, le_trans (le_of_lt hgt) hle, ?_, ?_⟩
        · intro e2 he2 y hy
          rcases List.mem_cons.1 he2 with rfl | he2
          · rw [hv] at hy
            injection hy with hy
            subst hy
            exact hle
          · exact hub e2 he2 y hy
        · rcases hat with h | ⟨e2, he2, hq⟩
          · exact Or.inr ⟨e, by simp, by rw [hv, h]⟩
          · exact Or.inr ⟨e2, by simp [he2], hq⟩
      · have hstep : maxEndStep (some a) e = some a := by
          unfold maxEndStep
          rw [hv]
          simp [jgt, hgt]
        rw [hstep]
        obtain ⟨q, hfold, hle, hub, hat⟩ := ih a
        refine ⟨q, hfold, hle, ?_, ?_⟩
        · intro e2 he2 y hy
          rcases List.mem_cons.1 he2 with rfl | he2
          · rw [hv] at hy
            injection hy with hy
            subst hy
            exact le_trans (not_lt.mp hgt) hle
          · exact hub e2 he2 y hy
        · rcases hat with h | ⟨e2, he2, hq⟩
          · exact Or.inl h
          · exact Or.inr ⟨e2, by simp [he2], hq⟩

/-- C4 counterexample: on a single entry ending at 61.5 s, `getVideoMetadata`
reports `durationSeconds = 120` (61.5 rounded up to a whole minute, times 60),
not the maximum `endTime` of 61.5 s. -/
theorem getVideoMetadata_duration_counterexample :
    (getVideoMetadata exEntriesHalfMinute).durationSeconds = some 120 ∧
      srtTimeToSeconds ((exEntriesHalfMinute.getD 0 defaultEntry).endTime) =
        some (mkRat 123 2) ∧
      (120 : Rat) ≠ mkRat 123 2 := by
  decide

theorem getVideoMetadata_durationFields (entries : List SrtEntry) (hne : entries ≠ []) :
    (getVideoMetadata entries).durationSeconds =
        jfloor (jmul (getVideoDuration entries) (some 60)) ∧
      (getVideoMetadata entries).durationMinutes =
        jfloor (jdiv (jmul (getVideoDuration entries) (some 60)) (some 60)) := by
  unfold getVideoMetadata
  rw [if_neg hne]
  exact ⟨rfl, rfl⟩

/-- C4 (amended): for every non-empty entry list, `durationSeconds` is the maximum
end time over all entries (clamped below by 0) rounded UP to a whole minute —
`60 * ⌈q/60⌉`, not the raw maximum — and `durationMinutes` is `⌈q/60⌉`. -/
theorem getVideoMetadata_duration_rounded_up (entries : List SrtEntry) (hne : entries ≠ []) :
    ∃ q : Rat,
      (∀ e ∈ entries, ∀ x : Rat, srtTimeToSeconds e.endTime = some x → x ≤ q) ∧
      (q = 0 ∨ ∃ e ∈ entries, srtTimeToSeconds e.endTime = some q) ∧
      (getVideoMetadata entries).durationSeconds =
        some (((Int.ceil (q / 60) : Int) : ℚ) * 60) ∧
      (getVideoMetadata entries).durationMinutes = some ((Int.ceil (q / 60) : Int) : ℚ) := by
  obtain ⟨q, hfold, hle, hub, hat⟩ := maxEndFold_spec entries 0
  have hgvd : getVideoDuration entries = some ((Int.ceil (q / 60) : Int) : ℚ) := by
    unfold getVideoDuration
    rw [if_neg hne, hfold]
    have h60 : ¬((60 : Rat) = 0) := by norm_num
    simp only [jdiv, h60, if_false]
    rw [qdiv_eq, jceil_some]
  obtain ⟨hds, hdm⟩ := getVideoMetadata_durationFields entries hne
  refine ⟨q, hub, hat, ?_, ?_⟩
  · rw [hds, hgvd]
    simp only [jmul]
    rw [qmul_eq]
    have hcast : ((Int.ceil (q / 60) : Int) : ℚ) * 60 = ((Int.ceil (q / 60) * 60 : Int) : ℚ) := by
      push_cast
      ring
    rw [hcast, jfloor_intCast, ← hcast]
  · rw [hdm, hgvd]
    simp only [jmul]
    rw [qmul_eq]
    have h60 : ¬((60 : Rat) = 0) := by norm_num
    simp only [jdiv, h60, if_false]
    rw [qdiv_eq]
    have hsimp : ((Int.ceil (q / 60) : Int) : ℚ) * 60 / 60 = ((Int.ceil (q / 60) : Int) : ℚ) := by
      field_simp
    rw [hsimp]
    have hcast : ((Int.ceil (q / 60) : Int) : ℚ) = (((Int.ceil (q / 60) : Int) : Int) : ℚ) := rfl
    rw [hcast, jfloor_intCast]

/-- Witness for C4 (amended) at the single-entry input ending at 61.5 s. -/
theorem getVideoMetadata_duration_rounded_up_witness :
    exEntriesHalfMinute ≠ [] ∧
      ∃ q : Rat,
        (∀ e ∈ exEntriesHalfMinute, ∀ x : Rat, srtTimeToSeconds e.endTime = some x → x ≤ q) ∧
        (q = 0 ∨ ∃ e ∈ exEntriesHalfMinute, srtTimeToSeconds e.endTime = some q) ∧
        (getVideoMetadata exEntriesHalfMinute).durationSeconds =
          some (((Int.ceil (q / 60) : Int) : ℚ) * 60) ∧
        (getVideoMetadata exEntriesHalfMinute).durationMinutes =
          some ((Int.ceil (q / 60) : Int) : ℚ) :=
  ⟨by decide, getVideoMetadata_duration_rounded_up exEntriesHalfMinute (by decide)⟩

/-- C5 counterexample: consistent metadata of a 300-minute video (category
`very_long`, as `categorizeVideoLength` computes from the duration) makes
`determineProcessingStrategy` return `complex`, not `enterprise`: the
`very_long`-or-high-complexity branch is tested before the 240-minute branch and
shadows it. -/
theorem determineProcessingStrategy_counterexample :
    determineProcessingStrategy exMetadata300 (analyzeContentDensity exMetadata300) =
        Strategy.complex ∧
      exMetadata300.videoCategory = categorizeVideoLength exMetadata300.durationMinutes ∧
      jgt exMetadata300.durationMinutes (some 240) = true ∧
      Strategy.complex ≠ Strategy.enterprise := by
  decide

/-- C5 (amended): for every metadata whose category is consistent with its duration
(`videoCategory = categorizeVideoLength durationMinutes`) and whose duration
exceeds 240 minutes, `determineProcessingStrategy` returns `complex` — the
`enterprise` branch is unreachable for duration-consistent metadata. -/
theorem determineProcessingStrategy_complex_over_240 (m : VideoMetadata)
    (ca : ContentDensityAnalysis)
    (hcat : m.videoCategory = categorizeVideoLength m.durationMinutes)
    (hdur : jgt m.durationMinutes (some 240) = true) :
    determineProcessingStrategy m ca = Strategy.complex := by
  cases hd : m.durationMinutes with
  | none =>
    rw [hd] at hdur
    exact absurd hdur (by simp [jgt])
  | some d =>
    rw [hd] at hdur
    have hgt : (240 : Rat) < d := by simpa [jgt] using hdur
    have h30 : jle (some d) (some 30) = false := by
      simp only [jle, decide_eq_false_iff_not, not_le]
      linarith
    have h90 : jle (some d) (some 90) = false := by
      simp only [jle, decide_eq_false_iff_not, not_le]
      linarith
    have h180 : jle (some d) (some 180) = false := by
      simp only [jle, decide_eq_false_iff_not, not_le]
      linarith
    have hvl : m.videoCategory = VideoCategory.very_long := by
      rw [hcat, hd]
      unfold categorizeVideoLength
      simp [h30, h90, h180]
    unfold determineProcessingStrategy
    rw [hvl]
    simp

/-- Witness for C5 (amended) at the 300-minute consistent metadata. -/
theorem determineProcessingStrategy_complex_over_240_witness :
    (exMetadata300.videoCategory = categorizeVideoLength exMetadata300.durationMinutes ∧
        jgt exMetadata300.durationMinutes (some 240) = true) ∧
      determineProcessingStrategy exMetadata300 (analyzeContentDensity exMetadata300) =
        Strategy.complex :=
  ⟨⟨by decide, by decide⟩,
    determineProcessingStrategy_complex_over_240 exMetadata300
      (analyzeContentDensity exMetadata300) (by decide) (by decide)⟩

/-- C9 counterexample: `timestampsOutputSchema`'s refinements accept a list whose
first and third timestamps ("00:01" and "00:03") are only 2 seconds apart — well
inside the claimed 5-second deduplication window — and whose second timestamp
(300 s) precedes a smaller one (3 s), so the accepted list is not sorted
ascending either; only exact string duplicates are rejected. -/
theorem timestampsOutputAccepts_counterexample :
    timestampsOutputAccepts exOutputNearDup = true ∧
      tsSeconds ((exOutputNearDup.timestamps.getD 0 ⟨[], []⟩).time) = 1 ∧
      tsSeconds ((exOutputNearDup.timestamps.getD 2 ⟨[], []⟩).time) = 3 ∧
      ((3 : Int) - 1 ≤ 5) ∧
      tsSeconds ((exOutputNearDup.timestamps.getD 1 ⟨[], []⟩).time) = 300 := by
  decide

/-- C9 (amended): every output accepted by the `timestampsOutputSchema` refinements
has pairwise-distinct timestamp STRINGS (exact-duplicate rejection via a `Set`);
the schema enforces neither a 5-second tolerance window nor ascending order. -/
theorem timestampsOutputAccepts_nodup (d : TimestampsOutput)
    (h : timestampsOutputAccepts d = true) :
    (d.timestamps.map (fun t => t.time)).Nodup := by
  unfold timestampsOutputAccepts at h
  simp only [Bool.and_eq_true, decide_eq_true_eq] at h
  obtain ⟨⟨⟨-, hdedup⟩, -⟩, -⟩ := h
  have hsub := List.dedup_sublist (d.timestamps.map (fun t => t.time))
  have hlen : (d.timestamps.map (fun t => t.time)).dedup.length =
      (d.timestamps.map (fun t => t.time)).length := by
    rw [hdedup, List.length_map]
  have heq := hsub.eq_of_length hlen
  have hnd := List.nodup_dedup (d.timestamps.map (fun t => t.time))
  rwa [heq] at hnd

/-- Witness for C9 (amended) at the accepted near-duplicate output. -/
theorem timestampsOutputAccepts_nodup_witness :
    timestampsOutputAccepts exOutputNearDup = true ∧
      (exOutputNearDup.timestamps.map (fun t => t.time)).Nodup :=
  ⟨by decide, timestampsOutputAccepts_nodup exOutputNearDup (by decide)⟩

/-! ## Order facts about `jgt` used by the best-candidate fold -/

theorem jgt_irrefl (x : JSNum) : jgt x x = false := by
  cases x <;> simp [jgt]

theorem jgt_some_left (x y : JSNum) (h : jgt x y = true) : ∃ u : Rat, x = some u := by
  cases x with
  | none => cases y <;> simp [jgt] at h
  | some u => exact ⟨u, rfl⟩

theorem jgt_gt_trans (x y z : JSNum) (h1 : jgt y x = true) (h2 : jgt y z = false) :
    jgt x z = false := by
  cases x with
  | none => cases z <;> rfl
  | some a =>
    cases y with
    | none => cases z <;> simp [jgt] at h1
    | some b =>
      cases z with
      | none => rfl
      | some w =>
        simp only [jgt, decide_eq_true_eq, decide_eq_false_iff_not, not_lt] at h1 h2 ⊢
        linarith

theorem jgt_false_trans (x z : JSNum) (u : Rat) (h1 : jgt x (some u) = false)
    (h2 : jgt (some u) z = false) : jgt x z = false := by
  cases x with
  | none => cases z <;> rfl
  | some a =>
    cases z with
    | none => rfl
    | some w =>
      simp only [jgt, decide_eq_true_eq, decide_eq_false_iff_not, not_lt] at h1 h2 ⊢
      linarith

theorem jgt_thr_trans (x y : JSNum) (t : Rat) (h1 : jgt x (some t) = false)
    (h2 : jgt y (some t) = true) : jgt x y = false := by
  cases y with
  | none => cases x <;> simp [jgt] at h2
  | some w =>
    cases x with
    | none => rfl
    | some a =>
      simp only [jgt, decide_eq_true_eq, decide_eq_false_iff_not, not_lt] at h1 h2 ⊢
      linarith

theorem bestFold_spec (score : Nat → JSNum) (rsn : Nat → BPReason) :
    ∀ (idxs : List Nat) (acc : Option (Nat × BPReason × JSNum)),
      (∀ b0, acc = some b0 →
          b0.2.2 = score b0.1 ∧ b0.2.1 = rsn b0.1 ∧ jgt b0.2.2 (some (mkRat 2 5)) = true) →
      ∀ b, idxs.foldl (bestStep score rsn) acc = some b →
        (b.2.2 = score b.1 ∧ b.2.1 = rsn b.1 ∧ jgt b.2.2 (some (mkRat 2 5)) = true) ∧
          (acc = some b ∨ b.1 ∈ idxs) ∧
          (∀ k ∈ idxs, jgt (score k) b.2.2 = false) ∧
          (∀ b0, acc = some b0 → jgt b0.2.2 b.2.2 = false) := by
  intro idxs
  induction idxs with
  | nil =>
    intro acc hacc b hfold
    simp only [List.foldl_nil] at hfold
    refine ⟨hacc b hfold, Or.inl hfold, by simp, ?_⟩
    intro b0 h0
    rw [hfold] at h0
    injection h0 with h0
    subst h0
    exact jgt_irrefl _
  | cons i idxs ih =>
    intro acc hacc b hfold
    simp only [List.foldl_cons] at hfold
    by_cases hcond :
        (jgt (score i) (some (mkRat 2 5)) && (acc.isNone || jgt (score i) (bestScoreOf acc))) =
          true
    · have hstep : bestStep score rsn acc i = some (i, rsn i, score i) := by
        unfold bestStep
        rw [if_pos hcond]
      rw [hstep] at hfold
      have hcond2 := hcond
      rw [Bool.and_eq_true] at hcond2
      obtain ⟨hc1, hc2⟩ := hcond2
      have hacc2 : ∀ b0, (some (i, rsn i, score i) :
            Option (Nat × BPReason × JSNum)) = some b0 →
          b0.2.2 = score b0.1 ∧ b0.2.1 = rsn b0.1 ∧ jgt b0.2.2 (some (mkRat 2 5)) = true := by
        intro b0 h0
        injection h0 with h0
        subst h0
        exact ⟨rfl, rfl, hc1⟩
      obtain ⟨hWF, hmem, hub, hmono⟩ := ih (some (i, rsn i, score i)) hacc2 b hfold
      refine ⟨hWF, ?_, ?_, ?_⟩
      · rcases hmem with he | he
        · injection he with he
          subst he
          exact Or.inr (by simp)
        · exact Or.inr (List.mem_cons_of_mem _ he)
      · intro k hk
        rcases List.mem_cons.1 hk with rfl | hk
        · exact hmono (k, rsn k, score k) rfl
        · exact hub k hk
      · intro b0 h0
        have hscore_gt : jgt (score i) b0.2.2 = true := by
          rw [h0] at hc2
          simpa [bestScoreOf] using hc2
        have hsc_le := hmono (i, rsn i, score i) rfl
        exact jgt_gt_trans b0.2.2 (score i) b.2.2 hscore_gt hsc_le
    · have hstep : bestStep score rsn acc i = acc := by
        unfold bestStep
        rw [if_neg hcond]
      rw [hstep] at hfold
      obtain ⟨hWF, hmem, hub, hmono⟩ := ih acc hacc b hfold
      refine ⟨hWF, ?_, ?_, hmono⟩
      · rcases hmem with he | he
        · exact Or.inl he
        · exact Or.inr (List.mem_cons_of_mem _ he)
      · intro k hk
        rcases List.mem_cons.1 hk with rfl | hk
        · by_cases hA : jgt (score k) (some (mkRat 2 5)) = true
          · have hB : (acc.isNone || jgt (score k) (bestScoreOf acc)) = false := by
              cases hBB : (acc.isNone || jgt (score k) (bestScoreOf acc)) with
              | false => rfl
              | true => exact absurd (by rw [hA, hBB]; rfl) hcond
            have hparts : acc.isNone = false ∧ jgt (score k) (bestScoreOf acc) = false := by
              constructor
              · cases hx : acc.isNone
                · rfl
                · rw [hx] at hB; simp at hB
              · cases hx : jgt (score k) (bestScoreOf acc)
                · rfl
                · rw [hx] at hB; simp at hB
            cases hacc_eq : acc with
            | none =>
              rw [hacc_eq] at hparts
              exact absurd hparts.1 (by simp)
            | some b0 =>
              have hb0 := hacc b0 hacc_eq
              have hlt : jgt (score k) b0.2.2 = false := by
                have := hparts.2
                rw [hacc_eq] at this
                simpa [bestScoreOf] using this
              have hmono0 := hmono b0 hacc_eq
              obtain ⟨u, hu⟩ := jgt_some_left b0.2.2 (some (mkRat 2 5)) hb0.2.2
              rw [hu] at hlt hmono0
              exact jgt_false_trans (score k) b.2.2 u hlt hmono0
          · have hA2 : jgt (score k) (some (mkRat 2 5)) = false := by
              cases hAA : jgt (score k) (some (mkRat 2 5)) with
              | false => rfl
              | true => exact absurd hAA hA
            exact jgt_thr_trans (score k) b.2.2 (mkRat 2 5) hA2 hWF.2.2
        · exact hub k hk

/-- C6 counterexample: after a sentence-final period followed by a 2-second pause,
the segmenter's inline scorer accepts position 0 as a snap target (inline score
0.3 + 0.2 = 0.5 > 0.4), while `findNaturalBreakPoints` emits no break point at
all there (its score 0.2 is below its 0.3 threshold) — so the two scorers do not
agree on acceptance, scores, or emission. -/
theorem findNearestBreakPoint_counterexample :
    findNearestBreakPoint exEntriesPause2 0 0 (some 120) = some (0, BPReason.section_break) ∧
      findNaturalBreakPoints exEntriesPause2 = [] := by
  decide

/-- C6 (amended): `findNearestBreakPoint` implements its own inline scoring
(`inlineBreakScore`: 0.6 for a pause ≥ 3 s else 0.3 for ≥ 1.5 s, 0.4 for a topic
indicator — including the extra cue "speaking of" — 0.2 for sentence-final
punctuation, minus a distance penalty) with strict threshold 0.4; whenever it
returns a snap target, that target lies in the search window, its inline score
clears the threshold, its reason is the inline reason, and no window position
has a strictly larger inline score. It does not coincide with
`findNaturalBreakPoints`. -/
theorem findNearestBreakPoint_spec (entries : List SrtEntry) (ci si : Nat) (range : Rat)
    (j : Nat) (r : BPReason)
    (h : findNearestBreakPoint entries ci si (some range) = some (j, r)) :
    j ∈ windowIdxs entries.length ci si range ∧
      jgt (inlineBreakScore entries ci range j) (some (mkRat 2 5)) = true ∧
      r = (inlineBreakBase entries j).2 ∧
      ∀ k ∈ windowIdxs entries.length ci si range,
        jgt (inlineBreakScore entries ci range k) (inlineBreakScore entries ci range j) =
          false := by
  unfold findNearestBreakPoint at h
  rw [Option.map_eq_some'] at h
  obtain ⟨b, hb, hjr⟩ := h
  obtain ⟨hWF, hmem, hub, -⟩ :=
    bestFold_spec (inlineBreakScore entries ci range) (fun i => (inlineBreakBase entries i).2)
      (windowIdxs entries.length ci si range) none (by simp) b hb
  rw [Prod.mk.injEq] at hjr
  obtain ⟨hj, hr⟩ := hjr
  subst hj
  subst hr
  rcases hmem with he | he
  · exact absurd he (by simp)
  · refine ⟨he, ?_, hWF.2.1, ?_⟩
    · rw [← hWF.1]
      exact hWF.2.2
    · intro k hk
      rw [← hWF.1]
      exact hub k hk

/-- Witness for C6 (amended) at the 2-second-pause concrete input. -/
theorem findNearestBreakPoint_spec_witness :
    findNearestBreakPoint exEntriesPause2 0 0 (some 120) =
        some (0, BPReason.section_break) ∧
      (0 ∈ windowIdxs exEntriesPause2.length 0 0 120 ∧
        jgt (inlineBreakScore exEntriesPause2 0 120 0) (some (mkRat 2 5)) = true ∧
        BPReason.section_break = (inlineBreakBase exEntriesPause2 0).2 ∧
        ∀ k ∈ windowIdxs exEntriesPause2.length 0 0 120,
          jgt (inlineBreakScore exEntriesPause2 0 120 k)
              (inlineBreakScore exEntriesPause2 0 120 0) =
            false) :=
  ⟨by decide,
    findNearestBreakPoint_spec exEntriesPause2 0 0 120 0 BPReason.section_break (by decide)⟩

/-- C1: on the two-entry input `exEntriesLoop` (a 39-second gap, so the first chunk
is shorter than the 30-second overlap window), the overlap walk-back of
`calculateNextChunkStart` returns an index behind the chunk start; the safety
increment (which compares against the entry's declared id) brings the next start
back to entry index 1 on every iteration, so the `while` loop of
`createTimeBasedChunks` never terminates: the fueled model returns `none` for
EVERY fuel. -/
theorem createTimeBasedChunks_nonterminating (fuel : Nat) :
    createTimeBasedChunks exEntriesLoop stdAnalysis DEFAULT_CHUNKING_OPTIONS fuel = none := by
  have hstuck : ∀ (f : Nat) (cid : Nat) (acc : List SrtChunk),
      chunkGo exEntriesLoop DEFAULT_CHUNKING_OPTIONS
          (qmul DEFAULT_CHUNKING_OPTIONS.targetDurationMinutes 60)
          (qmul DEFAULT_CHUNKING_OPTIONS.maxDurationMinutes 60)
          (qmul DEFAULT_CHUNKING_OPTIONS.minDurationMinutes 60) f 1 cid acc = none := by
    intro f
    induction f with
    | zero => intro cid acc; rfl
    | succ f ih =>
      intro cid acc
      exact Eq.trans (by rfl)
        (ih (cid + 1)
          (acc ++
            [createSingleChunk exEntriesLoop 1
                (qmul DEFAULT_CHUNKING_OPTIONS.targetDurationMinutes 60)
                (qmul DEFAULT_CHUNKING_OPTIONS.maxDurationMinutes 60)
                (qmul DEFAULT_CHUNKING_OPTIONS.minDurationMinutes 60) cid
                DEFAULT_CHUNKING_OPTIONS]))
  unfold createTimeBasedChunks
  rw [if_neg (by decide)]
  cases fuel with
  | zero => rfl
  | succ f =>
    have h1 :
        chunkGo exEntriesLoop DEFAULT_CHUNKING_OPTIONS
            (qmul DEFAULT_CHUNKING_OPTIONS.targetDurationMinutes 60)
            (qmul DEFAULT_CHUNKING_OPTIONS.maxDurationMinutes 60)
            (qmul DEFAULT_CHUNKING_OPTIONS.minDurationMinutes 60) (f + 1) 0 1 [] =
          chunkGo exEntriesLoop DEFAULT_CHUNKING_OPTIONS
            (qmul DEFAULT_CHUNKING_OPTIONS.targetDurationMinutes 60)
            (qmul DEFAULT_CHUNKING_OPTIONS.maxDurationMinutes 60)
            (qmul DEFAULT_CHUNKING_OPTIONS.minDurationMinutes 60) f 1 2
            [createSingleChunk exEntriesLoop 0
                (qmul DEFAULT_CHUNKING_OPTIONS.targetDurationMinutes 60)
                (qmul DEFAULT_CHUNKING_OPTIONS.maxDurationMinutes 60)
                (qmul DEFAULT_CHUNKING_OPTIONS.minDurationMinutes 60) 1
                DEFAULT_CHUNKING_OPTIONS] := by
      rfl
    rw [h1, hstuck f 2 _]
    rfl

/-! ## Bounds on the chunk segmenter's helpers (toward the coverage theorem) -/

theorem windowIdxs_bounds (n ci si : Nat) (range : Rat) :
    ∀ x ∈ windowIdxs n ci si range, si ≤ x ∧ (x : Int) ≤ (n : Int) - 2 := by
  intro x hx
  unfold windowIdxs at hx
  simp only [List.mem_map, List.mem_range] at hx
  obtain ⟨k, hk, rfl⟩ := hx
  have hss : (si : Int) ≤ max (si : Int) ((ci : Int) - (qdiv range 2).floor) := le_max_left _ _
  have hstop :
      min (min ((n : Int) - 1) ((ci : Int) + (qdiv range 2).floor)) ((n : Int) - 2) ≤
        (n : Int) - 2 := min_le_right _ _
  omega

theorem findNearestBreakPoint_bounds (entries : List SrtEntry) (ci si : Nat) (sr : JSNum)
    (j : Nat) (r : BPReason) (h : findNearestBreakPoint entries ci si sr = some (j, r)) :
    si ≤ j ∧ (j : Int) ≤ (entries.length : Int) - 2 := by
  cases sr with
  | none => exact absurd h (by simp [findNearestBreakPoint])
  | some range =>
    unfold findNearestBreakPoint at h
    rw [Option.map_eq_some'] at h
    obtain ⟨b, hb, hjr⟩ := h
    obtain ⟨-, hmem, -, -⟩ :=
      bestFold_spec (inlineBreakScore entries ci range)
        (fun i => (inlineBreakBase entries i).2) (windowIdxs entries.length ci si range) none
        (by simp) b hb
    rcases hmem with he | he
    · exact absurd he (by simp)
    · rw [Prod.mk.injEq] at hjr
      obtain ⟨hj, -⟩ := hjr
      subst hj
      exact windowIdxs_bounds entries.length ci si range b.1 he

theorem overlapWalk_le (allEntries : List SrtEntry) (t : JSNum) :
    ∀ (k i : Nat), overlapWalk allEntries t k = some i → i ≤ k := by
  intro k
  induction k with
  | zero =>
    intro i h
    unfold overlapWalk at h
    split at h
    · injection h with h; omega
    · exact absurd h (by simp)
  | succ k ih =>
    intro i h
    unfold overlapWalk at h
    split at h
    · injection h with h; omega
    · exact Nat.le_succ_of_le (ih i h)

theorem scanLoop_bounds (entries : List SrtEntry) (si : Nat) (ss tg mx : JSNum) (resp : Bool)
    (sr : JSNum) :
    ∀ (fuel i eIx : Nat) (cur : JSNum), si ≤ eIx → eIx < entries.length → si ≤ i →
      si ≤ (scanLoop entries si ss tg mx resp sr fuel i eIx cur).1 ∧
        (scanLoop entries si ss tg mx resp sr fuel i eIx cur).1 < entries.length := by
  intro fuel
  induction fuel with
  | zero =>
    intro i eIx cur h1 h2 h3
    exact ⟨h1, h2⟩
  | succ fuel ih =>
    intro i eIx cur h1 h2 h3
    by_cases hin : i < entries.length
    · simp only [scanLoop, hin, if_true]
      by_cases hge :
          jge (jsub (srtTimeToSeconds ((entries.getD i defaultEntry).endTime)) ss) tg = true
      · simp only [hge, if_true]
        cases hbp : (if resp then findNearestBreakPoint entries i si sr else none) with
        | some br =>
          have hb : findNearestBreakPoint entries i si sr = some br := by
            by_cases hr : resp = true
            · rw [hr] at hbp; simpa using hbp
            · rw [eq_false_of_ne_true hr] at hbp; simp at hbp
          obtain ⟨hl, hu⟩ :=
            findNearestBreakPoint_bounds entries i si sr br.1 br.2 (by rw [hb])
          have hbr : br.1 < entries.length := by omega
          exact ⟨hl, hbr⟩
        | none =>
          show si ≤
              (if jle (jsub (srtTimeToSeconds ((entries.getD i defaultEntry).endTime)) ss) mx =
                    true then
                  (i, (none : Option BPReason),
                    jsub (srtTimeToSeconds ((entries.getD i defaultEntry).endTime)) ss)
                else
                  (max si (i - 1), (none : Option BPReason),
                    jsub (srtTimeToSeconds ((entries.getD i defaultEntry).endTime)) ss)).1 ∧
              (if jle (jsub (srtTimeToSeconds ((entries.getD i defaultEntry).endTime)) ss) mx =
                    true then
                  (i, (none : Option BPReason),
                    jsub (srtTimeToSeconds ((entries.getD i defaultEntry).endTime)) ss)
                else
                  (max si (i - 1), (none : Option BPReason),
                    jsub (srtTimeToSeconds ((entries.getD i defaultEntry).endTime)) ss)).1 <
                entries.length
          by_cases hle :
              jle (jsub (srtTimeToSeconds ((entries.getD i defaultEntry).endTime)) ss) mx = true
          · rw [if_pos hle]
            exact ⟨h3, hin⟩
          · rw [if_neg hle]
            refine ⟨le_max_left _ _, ?_⟩
            show max si (i - 1) < entries.length
            omega
      · simp only [eq_false_of_ne_true hge, Bool.false_eq_true, if_false]
        exact ih (i + 1) i _ h3 hin (by omega)
    · simp only [scanLoop, hin, if_false]
      exact ⟨h1, h2⟩

theorem chunkEndIndex_bounds (entries : List SrtEntry) (si : Nat) (t m mn : Rat)
    (opts : ChunkingOptions) (h : si < entries.length) :
    si ≤ chunkEndIndex entries si t m mn opts ∧
      chunkEndIndex entries si t m mn opts < entries.length := by
  simp only [chunkEndIndex, chunkScan]
  obtain ⟨h1, h2⟩ :=
    scanLoop_bounds entries si
      (srtTimeToSeconds ((entries.getD si defaultEntry).startTime)) (some t) (some m)
      opts.respectNaturalBreaks (some (qsub m t)) entries.length si si (some 0) (le_refl si) h
      (le_refl si)
  split
  · constructor
    · exact le_trans h1 (le_max_left _ _)
    · have hmin :
          min ((entries.length : Int) - 1)
              ((si : Int) +
                (qmul ((entries.length - si : Nat) : Rat) (qdiv mn t)).floor) ≤
            (entries.length : Int) - 1 := min_le_left _ _
      omega
  · exact ⟨h1, h2⟩

theorem mem_drop_take {α : Type} (l : List α) (s i e : Nat) (d : α) (h1 : s ≤ i) (h2 : i ≤ e)
    (h3 : i < l.length) : l.getD i d ∈ (l.drop s).take (e + 1 - s) := by
  have hdl : i - s < (l.drop s).length := by
    rw [List.length_drop]
    omega
  have hidx : i - s < ((l.drop s).take (e + 1 - s)).length := by
    rw [List.length_take, List.length_drop]
    omega
  have hval : ((l.drop s).take (e + 1 - s))[i - s] = l[i] := by
    rw [List.getElem_take]
    rw [List.getElem_drop]
    congr 1
    omega
  rw [List.getD_eq_getElem l d h3, ← hval]
  exact List.getElem_mem hidx

theorem getLastD_drop_take {α : Type} (l : List α) (s e : Nat) (d : α) (hs : s ≤ e)
    (he : e < l.length) : ((l.drop s).take (e + 1 - s)).getLastD d = l.getD e d := by
  have hlen : ((l.drop s).take (e + 1 - s)).length = e + 1 - s := by
    rw [List.length_take, List.length_drop]
    omega
  have hidx : e - s < ((l.drop s).take (e + 1 - s)).length := by
    rw [hlen]
    omega
  have hval : ((l.drop s).take (e + 1 - s))[e - s] = l[e] := by
    rw [List.getElem_take]
    rw [List.getElem_drop]
    congr 1
    omega
  rw [List.getLastD_eq_getLast?, List.getLast?_eq_getElem?, hlen]
  have hi : e + 1 - s - 1 = e - s := by omega
  rw [hi, List.getElem?_eq_getElem hidx, hval]
  rw [List.getD_eq_getElem l d he]
  rfl

theorem createSingleChunk_entries (entries : List SrtEntry) (si : Nat) (t m mn : Rat)
    (cid : Nat) (opts : ChunkingOptions) :
    (createSingleChunk entries si t m mn cid opts).entries =
      (entries.drop si).take (chunkEndIndex entries si t m mn opts + 1 - si) := rfl

theorem calculateNextChunkStart_le (c : SrtChunk) (entries : List SrtEntry)
    (opts : ChunkingOptions) (e : Nat) (hop : ¬opts.overlapSeconds = 0)
    (hlast : (c.entries.getLastD defaultEntry).id = (e : Int) + 1) (he : e < entries.length) :
    ∃ nxt : Int, calculateNextChunkStart c entries opts = some nxt ∧ nxt ≤ (e : Int) := by
  unfold calculateNextChunkStart
  rw [hlast]
  have hsub : ((e : Int) + 1 - 1) = (e : Int) := by ring
  rw [hsub]
  rw [if_neg hop, if_neg (by omega), if_neg (by omega)]
  cases hw : overlapWalk entries (jsub c.endSeconds (some opts.overlapSeconds)) (e : Int).toNat with
  | some i =>
    have hle := overlapWalk_le entries (jsub c.endSeconds (some opts.overlapSeconds)) _ i hw
    refine ⟨max 0 (i : Int), rfl, ?_⟩
    omega
  | none =>
    refine ⟨max 0 (e : Int), rfl, ?_⟩
    omega

theorem chunkGo_acc_mono (entries : List SrtEntry) (opts : ChunkingOptions) (t m mn : Rat) :
    ∀ (fuel : Nat) (s : Int) (cid : Nat) (acc chunks : List SrtChunk),
      chunkGo entries opts t m mn fuel s cid acc = some chunks → ∀ c ∈ acc, c ∈ chunks := by
  intro fuel
  induction fuel with
  | zero =>
    intro s cid acc chunks h
    exact absurd h (by simp [chunkGo])
  | succ fuel ih =>
    intro s cid acc chunks h
    unfold chunkGo at h
    by_cases hs : s < (entries.length : Int)
    · rw [if_pos hs] at h
      by_cases hs0 : (0 : Int) ≤ s
      · rw [if_pos hs0] at h
        cases hnext : calculateNextChunkStart
            (createSingleChunk entries s.toNat t m mn cid opts) entries opts with
        | none => rw [hnext] at h; exact absurd h (by simp)
        | some nxt =>
          rw [hnext] at h
          intro c hc
          exact ih _ _ _ _ h c (by simp [hc])
      · rw [if_neg hs0] at h
        exact absurd h (by simp)
    · rw [if_neg hs] at h
      injection h with h
      subst h
      exact fun c hc => hc

theorem chunkGo_coverage (entries : List SrtEntry) (opts : ChunkingOptions) (t m mn : Rat)
    (hop : ¬opts.overlapSeconds = 0)
    (hids : ∀ i, i < entries.length → (entries.getD i defaultEntry).id = (i : Int) + 1) :
    ∀ (fuel : Nat) (s : Int) (cid : Nat) (acc chunks : List SrtChunk),
      chunkGo entries opts t m mn fuel s cid acc = some chunks →
      ∀ i : Nat, s ≤ (i : Int) → i < entries.length →
        ∃ c ∈ chunks, entries.getD i defaultEntry ∈ c.entries := by
  intro fuel
  induction fuel with
  | zero =>
    intro s cid acc chunks h
    exact absurd h (by simp [chunkGo])
  | succ fuel ih =>
    intro s cid acc chunks h i hsi hin
    unfold chunkGo at h
    by_cases hs : s < (entries.length : Int)
    · rw [if_pos hs] at h
      by_cases hs0 : (0 : Int) ≤ s
      · rw [if_pos hs0] at h
        have hsn_lt : s.toNat < entries.length := by omega
        obtain ⟨hesl, heltn⟩ := chunkEndIndex_bounds entries s.toNat t m mn opts hsn_lt
        have hlast :
            ((createSingleChunk entries s.toNat t m mn cid opts).entries.getLastD
                defaultEntry).id =
              ((chunkEndIndex entries s.toNat t m mn opts : Nat) : Int) + 1 := by
          rw [createSingleChunk_entries]
          rw [getLastD_drop_take entries s.toNat (chunkEndIndex entries s.toNat t m mn opts)
            defaultEntry hesl heltn]
          exact hids _ heltn
        obtain ⟨nxt, hnext, hnxt_le⟩ :=
          calculateNextChunkStart_le (createSingleChunk entries s.toNat t m mn cid opts)
            entries opts (chunkEndIndex entries s.toNat t m mn opts) hop hlast heltn
        rw [hnext, hlast] at h
        have h2 :
            chunkGo entries opts t m mn fuel
                (if nxt ≤ ((chunkEndIndex entries s.toNat t m mn opts : Nat) : Int) + 1 then
                  nxt + 1
                else nxt)
                (cid + 1) (acc ++ [createSingleChunk entries s.toNat t m mn cid opts]) =
              some chunks := h
        rw [if_pos (by omega)] at h2
        clear h
        by_cases hie : i ≤ chunkEndIndex entries s.toNat t m mn opts
        · refine ⟨createSingleChunk entries s.toNat t m mn cid opts, ?_, ?_⟩
          · exact chunkGo_acc_mono entries opts t m mn fuel _ _ _ _ h2 _ (by simp)
          · rw [createSingleChunk_entries]
            exact mem_drop_take entries s.toNat i (chunkEndIndex entries s.toNat t m mn opts)
              defaultEntry (by omega) hie hin
        · exact ih (nxt + 1) (cid + 1) _ chunks h2 i (by omega) hin
      · rw [if_neg hs0] at h
        exact absurd h (by simp)
    · rw [if_neg hs] at h
      omega

theorem map_entries_modifyHead (l : List SrtChunk) (f : SrtChunk → SrtChunk)
    (hf : ∀ c, (f c).entries = c.entries) :
    (l.modifyHead f).map (fun c => c.entries) = l.map (fun c => c.entries) := by
  cases l with
  | nil => rfl
  | cons c t => simp [List.modifyHead, hf]

theorem map_entries_modifyLast (l : List SrtChunk) (f : SrtChunk → SrtChunk)
    (hf : ∀ c, (f c).entries = c.entries) :
    (modifyLastChunk f l).map (fun c => c.entries) = l.map (fun c => c.entries) := by
  unfold modifyLastChunk
  rw [List.map_reverse, map_entries_modifyHead _ _ hf, List.map_reverse, List.reverse_reverse]

theorem postProcessChunks_entries_map (chunks : List SrtChunk) (a : VideoAnalysis) :
    (postProcessChunks chunks a).map (fun c => c.entries) =
      chunks.map (fun c => c.entries) := by
  unfold postProcessChunks
  split
  · rfl
  · rw [List.map_map]
    have hcomp :
        ((fun c => c.entries) ∘ fun c =>
            { c with
              confidence :=
                jmin (some 1)
                  (jmul c.confidence (some (strategyMultiplier a.processingStrategy))) }) =
          fun (c : SrtChunk) => c.entries := by
      funext c
      rfl
    rw [hcomp]
    split
    · rw [map_entries_modifyLast (List.modifyHead setIntroFlag chunks) setOutroFlag
        (fun c => rfl)]
      rw [map_entries_modifyHead chunks setIntroFlag (fun c => rfl)]
    · rfl

/-- C2 counterexample: on two entries with equal start times, `createTimeBasedChunks`
terminates and returns two chunks with EQUAL `startSeconds` (both 0), so
consecutive chunk start times are not strictly increasing as the claim states. -/
theorem createTimeBasedChunks_counterexample :
    (createTimeBasedChunks exEntriesEqStart stdAnalysis DEFAULT_CHUNKING_OPTIONS 10).map
        (List.map (fun c => c.startSeconds)) =
      some [some 0, some 0] := by
  decide

/-- C2 (amended): for every entry list whose declared ids equal their 1-based
positions, whenever the chunking loop terminates (the fueled model returns a
chunk list) under the default options, every input entry belongs to at least one
returned chunk. Strict increase of consecutive chunk start TIMES does not hold
in general (equal start times occur, see the counterexample), and on some inputs
the loop does not terminate at all. -/
theorem createTimeBasedChunks_coverage (entries : List SrtEntry) (analysis : VideoAnalysis)
    (fuel : Nat) (chunks : List SrtChunk)
    (hids : ∀ i, i < entries.length → (entries.getD i defaultEntry).id = (i : Int) + 1)
    (h : createTimeBasedChunks entries analysis DEFAULT_CHUNKING_OPTIONS fuel = some chunks) :
    ∀ e ∈ entries, ∃ c ∈ chunks, e ∈ c.entries := by
  by_cases hne : entries = []
  · subst hne
    intro e he
    exact absurd he (by simp)
  · unfold createTimeBasedChunks at h
    rw [if_neg hne] at h
    rw [Option.map_eq_some'] at h
    obtain ⟨cs, hgo, hpost⟩ := h
    intro e he
    obtain ⟨i, hi, hei⟩ := List.mem_iff_getElem.1 he
    obtain ⟨c0, hc0, hmemc0⟩ :=
      chunkGo_coverage entries DEFAULT_CHUNKING_OPTIONS
        (qmul DEFAULT_CHUNKING_OPTIONS.targetDurationMinutes 60)
        (qmul DEFAULT_CHUNKING_OPTIONS.maxDurationMinutes 60)
        (qmul DEFAULT_CHUNKING_OPTIONS.minDurationMinutes 60) (by decide) hids fuel 0 1 [] cs
        hgo i (by omega) hi
    have hmap := postProcessChunks_entries_map cs analysis
    rw [hpost] at hmap
    have hmem2 : c0.entries ∈ chunks.map (fun c => c.entries) := by
      rw [hmap]
      exact List.mem_map_of_mem _ hc0
    obtain ⟨c, hc, hce⟩ := List.mem_map.1 hmem2
    refine ⟨c, hc, ?_⟩
    rw [hce]
    rw [List.getD_eq_getElem entries defaultEntry hi, hei] at hmemc0
    exact hmemc0

/-- Witness for C2 (amended): the equal-start input terminates with fuel 10 and
every entry is covered by some returned chunk. -/
theorem createTimeBasedChunks_coverage_witness :
    ∃ chunks,
      createTimeBasedChunks exEntriesEqStart stdAnalysis DEFAULT_CHUNKING_OPTIONS 10 =
          some chunks ∧
        ∀ e ∈ exEntriesEqStart, ∃ c ∈ chunks, e ∈ c.entries := by
  cases hX : createTimeBasedChunks exEntriesEqStart stdAnalysis DEFAULT_CHUNKING_OPTIONS 10 with
  | none => exact absurd hX (by decide)
  | some chunks =>
    refine ⟨chunks, rfl, ?_⟩
    refine createTimeBasedChunks_coverage exEntriesEqStart stdAnalysis 10 chunks ?_ hX
    intro i hi
    have hi2 : i < 2 := by simpa [exEntriesEqStart] using hi
    interval_cases i <;> rfl
